import Mathlib

/-!
Verification development for the `omni_archive` library: a shallow embedding of
the generic archive abstraction (`generic.py`) and its three backends
(`zip.py`, `tar.py`, `dir.py`), with theorems settling the specification
claims about dispatch, globbing, the open/write/close lifecycle and the
error contracts.

Strings are modelled as `List Char` (`Str`), byte payloads as `List Nat`
(`Bytes`).  Stateful Python objects become explicit state records; methods
become functions threading those records; raised exceptions become
`Except AErr` results, with `AErr` mirroring the error taxonomy of the spec.
-/

namespace OmniArchive

abbrev Str := List Char
abbrev Bytes := List Nat

/-- Error taxonomy (spec section 7).  Each constructor corresponds to the
Python exception raised by the code: `unknownFormat` = `UnknownArchiveError`,
`notFound`/`memberNotFound` = `FileNotFoundError`, `noData` = `IOError`
("no data associated with this member"), `readOnlyViolation` = the
`ValueError` raised on writes to read-mode archives, `alreadyExists` =
`FileExistsError`, `invalidMode` = `ValueError` on bad mode strings,
`closedHandle` = `ValueError` on using a closed codec handle,
`isADirectory` = `IsADirectoryError`. -/
inductive AErr
  | unknownFormat
  | notFound
  | memberNotFound
  | noData
  | readOnlyViolation
  | alreadyExists
  | invalidMode
  | closedHandle
  | isADirectory
  deriving DecidableEq

instance {ε α : Type} [DecidableEq ε] [DecidableEq α] : DecidableEq (Except ε α) := fun x y =>
  match x, y with
  | .ok a, .ok b =>
    if h : a = b then .isTrue (by rw [h]) else .isFalse (fun hc => h (by cases hc; rfl))
  | .error a, .error b =>
    if h : a = b then .isTrue (by rw [h]) else .isFalse (fun hc => h (by cases hc; rfl))
  | .ok _, .error _ => .isFalse (fun hc => Except.noConfusion hc)
  | .error _, .ok _ => .isFalse (fun hc => Except.noConfusion hc)

/-- Last-binding-wins lookup in an association list keyed by `Str`.  This
models a Python `dict` built by successive assignments (the later assignment
to a key shadows the earlier one), as used for `ZipFile.NameToInfo` and
`TarArchive._members`. -/
def lookupLastK {α : Type} (l : List (Str × α)) (k : Str) : Option α :=
  (l.reverse.find? (fun e => e.1 == k)).map (·.2)

/-! ## The `fnmatch2` pattern matcher

`Archive.glob` (generic.py, lines 211-223) delegates matching to the external
`fnmatch2` library, chosen precisely because `*`/`?` must not cross a path
separator while `**` must (see the comment in the source).  The library's
code is not part of this repository, so the matcher below is *modelled from
the spec*: `*` matches any (possibly empty) run of non-separator characters,
`?` matches one non-separator character, `**` matches any run of characters
including separators, and any other character matches itself.  Character
classes `[...]` are not modelled; the theorems below therefore restrict
themselves to class-free patterns. -/

/-- All suffixes of a string, longest first (what `**` may leave behind). -/
def suffixes : Str → List Str
  | [] => [[]]
  | c :: s => (c :: s) :: suffixes s

/-- The suffixes of a string reachable by consuming only non-separator
characters (what a single `*` may leave behind). -/
def segSplits : Str → List Str
  | [] => [[]]
  | c :: s => (c :: s) :: (if c = '/' then [] else segSplits s)

/-- Modelled from the spec: the `fnmatch2` glob matcher over the pattern
(first argument) and the subject string (second argument).  A lone `*`
pattern tail is inlined (`gmatch [] s' = s'.isEmpty`) to keep the recursion
structural. -/
def gmatch : Str → Str → Bool
  | [], s => s.isEmpty
  | c :: p, s =>
    if c = '*' then
      match p with
      | '*' :: q => (suffixes s).any fun s' => gmatch q s'
      | [] => (segSplits s).any fun s' => s'.isEmpty
      | d :: q => (segSplits s).any fun s' => gmatch (d :: q) s'
    else if c = '?' then
      match s with
      | d :: s' => !(d == '/') && gmatch p s'
      | [] => false
    else
      match s with
      | d :: s' => (c == d) && gmatch p s'
      | [] => false

/-- A pattern with no occurrence of the recursive wildcard `**`. -/
def noSS : Str → Bool
  | [] => true
  | c :: p => !(c == '*' && p.head? == some '*') && noSS p

/-- `os.path.normcase` on POSIX platforms: the identity. -/
def posixNormcase : Char → Char := id

/-- `os.path.normcase` on Windows platforms: lower-case the string and turn
forward slashes into backslashes. -/
def windowsNormcase (c : Char) : Char :=
  if c = '/' then '\\' else c.toLower

/-- `fnmatch2.fnmatch2 name pattern`: case-normalises both sides with the
platform `normcase` before matching (modelled from the spec, by analogy with
the standard library `fnmatch.fnmatch`). -/
def fnmatch2 (nc : Char → Char) (name pat : Str) : Bool :=
  gmatch (pat.map nc) (name.map nc)

/-- `fnmatch2.fnmatchcase2 name pattern`: match without case normalisation. -/
def fnmatchcase2 (name pat : Str) : Bool :=
  gmatch pat name

/-! ## The standard-library `fnmatch` matcher

`_ArchivePath.match` (generic.py, lines 43-46) uses the standard library
`fnmatch` module, whose `translate` turns `*` into `.*` and `?` into `.`:
both cross path separators, and there is no special `**`. -/

/-- The standard-library `fnmatch.translate` semantics: `*` matches any run
of characters (separators included), `?` any single character. -/
def fmatch : Str → Str → Bool
  | [], s => s.isEmpty
  | c :: p, s =>
    if c = '*' then (suffixes s).any fun s' => fmatch p s'
    else if c = '?' then
      match s with
      | _ :: s' => fmatch p s'
      | [] => false
    else
      match s with
      | d :: s' => (c == d) && fmatch p s'
      | [] => false

/-- `fnmatch.fnmatch name pattern`: normcases both sides. -/
def fnmatchStd (nc : Char → Char) (name pat : Str) : Bool :=
  fmatch (pat.map nc) (name.map nc)

/-- `_ArchivePath.match(pattern, case_sensitive)` (generic.py, lines 43-46):
`fnmatch.fnmatchcase` when `case_sensitive` is truthy, else
`fnmatch.fnmatch`. -/
def pathMatch (caseSensitive : Bool) (nc : Char → Char) (name pat : Str) : Bool :=
  if caseSensitive then fmatch pat name else fnmatchStd nc name pat

/-! ## Member paths and the generic `Archive` operations

A member's relative path (a `PurePosixPath` in the source) is modelled in
normalised form as its non-empty list of segments (`MPath`); `joinSegs`
renders it as the string `str(member._path)`, and `List.dropLast` is the
`parent` operation (`[]` is the root path `"."`).  The generic
`Archive.glob` / `Archive.iterdir_at` of generic.py (lines 211-236) operate
on the sequence produced by `members()`, modelled as a `List MPath`. -/

abbrev Seg := Str
abbrev MPath := List Seg

/-- `str(path)` for a normalised segment list: segments joined by `/`. -/
def joinSegs : MPath → Str
  | [] => []
  | [s] => s
  | s :: r => s ++ '/' :: joinSegs r

/-- A normalised path: every segment is non-empty and free of separators
(this is what `PurePosixPath` guarantees for its parts). -/
def canonicalP (m : MPath) : Prop := ∀ s ∈ m, s ≠ [] ∧ '/' ∉ s

instance (m : MPath) : Decidable (canonicalP m) := by
  unfold canonicalP
  infer_instance

/-- `Archive.iterdir_at(at)` (generic.py, lines 228-236): the members whose
`parent` path equals `at` (the root default `.` is the empty segment
list). -/
def iterdirAt (members : List MPath) (d : MPath) : List MPath :=
  members.filter fun m => m.dropLast == d

/-- `Archive.glob(pattern, **kwargs)` (generic.py, lines 211-223): filter
`members()` by `fnmatch2.fnmatchcase2` when `case_sensitive` is truthy and
by `fnmatch2.fnmatch2` otherwise (the default, since
`kwargs.get("case_sensitive", False)`). -/
def genGlob (members : List MPath) (pat : Str) (caseSensitive : Bool)
    (nc : Char → Char) : List MPath :=
  members.filter fun m =>
    if caseSensitive then fnmatchcase2 (joinSegs m) pat
    else fnmatch2 nc (joinSegs m) pat

/-- The pattern string produced by `_ArchivePath.glob("*")` at path `d`:
`str(self._path / "*")` (generic.py, line 38). -/
def childGlobPat (d : MPath) : Str := joinSegs (d ++ [['*']])

/-- Segment-wise matching of a path against a pattern segment list, as
`pathlib`'s `Path.glob` machinery does for the directory backend
(dir.py, lines 60-62 delegate to `self.archive_fn.glob`). -/
def segsMatch : MPath → List Str → Bool
  | [], [] => true
  | s :: m, q :: qs => gmatch q s && segsMatch m qs
  | _, _ => false

/-- Modelled from the spec: `pathlib.Path.glob` over the recursive listing
of the directory backend, matching pattern segments one component at a
time (`DirectoryArchive.glob`, dir.py lines 60-62; the `pathlib` machinery
itself is outside this repository). -/
def plGlob (members : List MPath) (pats : List Str) : List MPath :=
  members.filter fun m => segsMatch m pats

/-! ## Format dispatch (`Archive.__new__`)

`Archive.__new__` (generic.py, lines 105-123) iterates
`cls.__subclasses__()`, whose order is the class-creation order fixed by
`omni_archive/__init__.py`: `TarArchive`, `ZipArchive`, `DirectoryArchive`.
In write mode it selects the first subclass with
`any(archive_fn.name.endswith(ext) for ext in subclass._extensions)` and
raises `UnknownArchiveError` when none matches. -/

inductive BackendK
  | tarB
  | zipB
  | dirB
  deriving DecidableEq

/-- The `_extensions` class attributes (tar.py lines 29-41, zip.py line 15,
dir.py line 22). -/
def extensions : BackendK → List Str
  | .tarB =>
      [ ['.', 't', 'a', 'r'],
        ['.', 't', 'a', 'r', '.', 'b', 'z', '2'],
        ['.', 't', 'b', '2'],
        ['.', 't', 'b', 'z'],
        ['.', 't', 'b', 'z', '2'],
        ['.', 't', 'z', '2'],
        ['.', 't', 'a', 'r', '.', 'g', 'z'],
        ['.', 't', 'a', 'z'],
        ['.', 't', 'g', 'z'],
        ['.', 't', 'a', 'r', '.', 'l', 'z', 'm', 'a'],
        ['.', 't', 'l', 'z'] ]
  | .zipB => [['.', 'z', 'i', 'p']]
  | .dirB => [[]]

/-- The fixed `cls.__subclasses__()` order (import order in `__init__.py`). -/
def subclassOrder : List BackendK := [.tarB, .zipB, .dirB]

/-- `any(archive_fn.name.endswith(ext) for ext in subclass._extensions)`. -/
def extMatches (b : BackendK) (name : Str) : Bool :=
  (extensions b).any fun e => e.isSuffixOf name

/-- The write-mode branch of `Archive.__new__`: first matching subclass,
`none` standing for the `UnknownArchiveError` raise. -/
def dispatchWrite (name : Str) : Option BackendK :=
  subclassOrder.find? fun b => extMatches b name

/-! ## Shared mode predicates -/

/-- `self.mode in ('w', 'x', 'a')`: the codec-level writability check
performed by `zipfile.ZipFile._writecheck` and `tarfile.TarFile._check`. -/
def isWXA (m : Str) : Bool := m == ['w'] || m == ['x'] || m == ['a']

/-- Substring (infix) test on character lists. -/
def listSub : Str → Str → Bool
  | l1, [] => l1.isEmpty
  | l1, c :: l2 => l1.isPrefixOf (c :: l2) || listSub l1 l2

/-- `self.mode in ("ra")`: the Python substring test used by
`ZipArchive.close` (zip.py line 91) and `TarArchive.close` (tar.py
line 58). -/
def modeInRA (m : Str) : Bool := listSub m ['r', 'a']

/-! ## The ZIP backend (`zip.py`)

State: the archive object carries its `mode` and the lazily materialised
`_zipfile` handle (`functools.cached_property`, zip.py lines 24-26).  The
handle carries the entry list (name, payload) in write order — Python's
`ZipFile.NameToInfo` resolves a name to the *last* entry bearing it — plus
the open flag `fp` and the mode the handle was opened with.  The on-disk
archive (`ZDisk`) is `none` until a central directory has been written. -/

structure ZipHandle where
  entries : List (Str × Bytes)
  fp : Bool
  hmode : Str
  deriving DecidableEq

structure ZipArch where
  amode : Str
  cached : Option ZipHandle
  deriving DecidableEq

abbrev ZDisk := Option (List (Str × Bytes))

/-- Materialise `self._zipfile` (zip.py lines 24-26): return the cached
handle, or open `ZipFile(self.archive_fn, self.mode)` — reading the disk in
`r` mode (`FileNotFoundError` if absent), starting empty otherwise. -/
def zipEnsure (d : ZDisk) (a : ZipArch) : Except AErr (ZipHandle × ZipArch) :=
  match a.cached with
  | some h => .ok (h, a)
  | none =>
    if a.amode.head? = some 'r' then
      match d with
      | some es => .ok (⟨es, true, a.amode⟩, { a with cached := some ⟨es, true, a.amode⟩ })
      | none => .error .notFound
    else .ok (⟨[], true, a.amode⟩, { a with cached := some ⟨[], true, a.amode⟩ })

/-- `ZipFile.writestr` (the codec call in zip.py line 86): aborts on a
closed handle or a read-mode handle, otherwise appends the entry. -/
def zipWritestr (h : ZipHandle) (fn : Str) (data : Bytes) : Except AErr ZipHandle :=
  if !h.fp then .error .closedHandle
  else if !(isWXA h.hmode) then .error .readOnlyViolation
  else .ok { h with entries := h.entries ++ [(fn, data)] }

/-- `ZipArchive.write_member` (zip.py lines 65-86): reduce the
bytes/`BytesIO`/stream input to its byte content and `writestr` it. -/
def zipWriteMember (d : ZDisk) (a : ZipArch) (fn : Str) (data : Bytes) :
    Except AErr ZipArch :=
  match zipEnsure d a with
  | .error e => .error e
  | .ok (h, a') =>
    match zipWritestr h fn data with
    | .error e => .error e
    | .ok h' => .ok { a' with cached := some h' }

/-- The handle returned by `ZipFile.open(member, "w")`: writes accumulate
and the entry is recorded when the member stream is closed. -/
structure ZipWStream where
  fn : Str
  buf : Bytes
  deriving DecidableEq

/-- `ZipArchive.open_at` with a write mode (zip.py lines 31-63): the member
stream from `self._zipfile.open(member, "w")`.  The codec's
`_open_to_write` → `_writecheck` raises `ValueError` unless the `ZipFile`
was opened in `w`/`x`/`a` mode — this is where a read-mode archive
fails. -/
def zipOpenAtW (d : ZDisk) (a : ZipArch) (fn : Str) :
    Except AErr (ZipWStream × ZipArch) :=
  match zipEnsure d a with
  | .error e => .error e
  | .ok (h, a') =>
    if !h.fp then .error .closedHandle
    else if !(isWXA h.hmode) then .error .readOnlyViolation
    else .ok (⟨fn, []⟩, a')

def zipWStreamWrite (st : ZipWStream) (b : Bytes) : ZipWStream :=
  { st with buf := st.buf ++ b }

/-- Closing the codec's member write stream records the finished entry in
the archive's index. -/
def zipWStreamClose (a : ZipArch) (st : ZipWStream) : ZipArch :=
  match a.cached with
  | some h => { a with cached := some { h with entries := h.entries ++ [(st.fn, st.buf)] } }
  | none => a

/-- `ZipArchive.open_at` with a read mode (zip.py lines 31-63):
`self._zipfile.open(member)`, raising `FileNotFoundError` when the name is
not in the index (the `KeyError` translation at lines 50-53). -/
def zipOpenAtR (d : ZDisk) (a : ZipArch) (fn : Str) :
    Except AErr (Bytes × ZipArch) :=
  match zipEnsure d a with
  | .error e => .error e
  | .ok (h, a') =>
    if !h.fp then .error .closedHandle
    else
      match lookupLastK h.entries fn with
      | some b => .ok (b, a')
      | none => .error .memberNotFound

/-- `ZipFile.close`: flush the central directory to disk for write-mode
handles and mark the handle closed; a no-op on an already closed handle. -/
def zipFileClose (d : ZDisk) (h : ZipHandle) : ZDisk × ZipHandle :=
  if h.fp then
    (if isWXA h.hmode then some h.entries else d, { h with fp := false })
  else (d, h)

/-- `ZipArchive.close` (zip.py lines 88-93): if `_zipfile` is cached, close
it, and additionally drop the cache when `self.mode in ("ra")` so the
archive can be transparently reopened. -/
def zipClose : ZDisk × ZipArch → ZDisk × ZipArch
  | (d, a) =>
    match a.cached with
    | none => (d, a)
    | some h =>
      let p := zipFileClose d h
      if modeInRA a.amode then (p.1, { a with cached := none })
      else (p.1, { a with cached := some p.2 })

/-! ### `zipfile.Path` existence and `ZipArchive.mkdir_at` / `touch_at` -/

/-- The ancestor directory names of an entry name (each prefix ending just
after a `/`), as `zipfile.CompleteDirs` implies them from the name list. -/
def slashPrefixes : Str → List Str
  | [] => []
  | c :: n => (if c = '/' then [[c]] else []) ++ (slashPrefixes n).map (fun t => c :: t)

def zipNames (entries : List (Str × Bytes)) : List Str := entries.map (·.1)

/-- `zipfile.Path(zf, q).exists()`: membership of `q` in the name list
completed with implied directories. -/
def zipPathExists (entries : List (Str × Bytes)) (q : Str) : Bool :=
  (zipNames entries).contains q
    || (zipNames entries).any fun n => (slashPrefixes n).contains q

/-- `if not member_fn.endswith("/"): member_fn += "/"`. -/
def ensureSlash (q : Str) : Str :=
  if q.getLast? = some '/' then q else q ++ ['/']

/-- `ZipArchive.mkdir_at` (zip.py lines 127-157): a silent return when the
codec predates `ZipFile.mkdir` (Python < 3.11); otherwise raise
`FileExistsError` when a file exists at the name without the trailing
slash, raise (or return when `exist_ok`) when the directory itself exists,
else write the directory entry. -/
def zipMkdirAt (d : ZDisk) (a : ZipArch) (q : Str) (existOk : Bool)
    (mkdirSupported : Bool) : Except AErr ZipArch :=
  if !mkdirSupported then .ok a
  else
    match zipEnsure d a with
    | .error e => .error e
    | .ok (h, a') =>
      let q' := ensureSlash q
      if zipPathExists h.entries q'.dropLast then .error .alreadyExists
      else if zipPathExists h.entries q' then
        if existOk then .ok a' else .error .alreadyExists
      else
        match zipWritestr h q' [] with
        | .error e => .error e
        | .ok h' => .ok { a' with cached := some h' }

/-- `ZipArchive.touch_at` (zip.py lines 159-160): `write_member(str(at), b"")`
with no conflict checking. -/
def zipTouchAt (d : ZDisk) (a : ZipArch) (q : Str) : Except AErr ZipArch :=
  zipWriteMember d a q []

/-! ## The TAR backend (`tar.py`)

State: the archive carries its mode, the cached `_tarfile` handle
(tar.py lines 51-53) and the cached `_members` name-to-info dict
(tar.py lines 105-110), both `functools.cached_property`s.  A tar entry is
a name, a type flag (`tarfile.REGTYPE`/`DIRTYPE`) and a payload. -/

inductive TarType
  | regF
  | dirF
  deriving DecidableEq

structure TarEntry where
  name : Str
  typ : TarType
  data : Bytes
  deriving DecidableEq

structure TarHandle where
  entries : List TarEntry
  fp : Bool
  hmode : Str
  deriving DecidableEq

structure TarArch where
  amode : Str
  tfile : Option TarHandle
  mems : Option (List TarEntry)
  deriving DecidableEq

abbrev TDisk := Option (List TarEntry)

/-- Last-assignment-wins lookup in the `_members` dict. -/
def tarLookup (ms : List TarEntry) (k : Str) : Option TarEntry :=
  ms.reverse.find? fun e => e.name == k

/-- The keys of `_members`, i.e. what `members()` yields (tar.py
lines 135-136). -/
def tarNames (ms : List TarEntry) : List Str := ms.map (·.name)

/-- Materialise `self._tarfile` (tar.py lines 51-53). -/
def tarEnsureFile (d : TDisk) (a : TarArch) : Except AErr (TarHandle × TarArch) :=
  match a.tfile with
  | some h => .ok (h, a)
  | none =>
    if a.amode.head? = some 'r' then
      match d with
      | some es => .ok (⟨es, true, a.amode⟩, { a with tfile := some ⟨es, true, a.amode⟩ })
      | none => .error .notFound
    else .ok (⟨[], true, a.amode⟩, { a with tfile := some ⟨[], true, a.amode⟩ })

/-- Materialise `self._members` (tar.py lines 105-110) from
`self._tarfile.getmembers()`. -/
def tarEnsureMems (d : TDisk) (a : TarArch) : Except AErr (List TarEntry × TarArch) :=
  match a.mems with
  | some ms => .ok (ms, a)
  | none =>
    match tarEnsureFile d a with
    | .error e => .error e
    | .ok (h, a') => .ok (h.entries, { a' with mems := some h.entries })

/-- `TarFile.addfile`: refuses a closed or non-write-mode handle, else
appends the entry. -/
def tarAddfile (h : TarHandle) (e : TarEntry) : Except AErr TarHandle :=
  if !h.fp then .error .closedHandle
  else if !(isWXA h.hmode) then .error .readOnlyViolation
  else .ok { h with entries := h.entries ++ [e] }

/-- `TarArchive.write_member` (tar.py lines 112-133): build a `TarInfo`
whose size is the buffer length, `addfile` it, then record it in
`self._members` (materialising the dict first if needed). -/
def tarWriteMember (d : TDisk) (a : TarArch) (fn : Str) (data : Bytes) :
    Except AErr TarArch :=
  match tarEnsureFile d a with
  | .error e => .error e
  | .ok (h, a1) =>
    match tarAddfile h ⟨fn, .regF, data⟩ with
    | .error e => .error e
    | .ok h' =>
      match tarEnsureMems d { a1 with tfile := some h' } with
      | .error e => .error e
      | .ok (ms, a2) => .ok { a2 with mems := some (ms ++ [⟨fn, .regF, data⟩]) }

/-- The `_TarIO` in-memory buffer (tar.py lines 12-23). -/
structure TarIO where
  fn : Str
  buf : Bytes
  deriving DecidableEq

/-- `TarArchive.open_at` with a write mode (tar.py lines 87-91): raise
`ValueError` when `"r" in self.mode`, else hand out a fresh `_TarIO`
buffer — the archive state is not touched. -/
def tarOpenAtW (a : TarArch) (fn : Str) : Except AErr TarIO :=
  if 'r' ∈ a.amode then .error .readOnlyViolation else .ok ⟨fn, []⟩

/-- Writing into the `_TarIO` buffer: pure accumulation. -/
def tarIOWrite (io : TarIO) (b : Bytes) : TarIO :=
  { io with buf := io.buf ++ b }

/-- `_TarIO.close` (tar.py lines 20-23): seek to 0 and commit the whole
buffer through `write_member`. -/
def tarIOClose (d : TDisk) (a : TarArch) (io : TarIO) : Except AErr TarArch :=
  tarWriteMember d a io.fn io.buf

/-- `TarArchive.open_at` with a read mode (tar.py lines 77-85): look the
name up in `_members` (`FileNotFoundError` on a miss), then
`extractfile` — which needs a readable open handle and returns no stream
for non-regular members (`IOError`, modelled as `noData`). -/
def tarReadAt (d : TDisk) (a : TarArch) (fn : Str) : Except AErr (Bytes × TarArch) :=
  match tarEnsureMems d a with
  | .error e => .error e
  | .ok (ms, a1) =>
    match tarLookup ms fn with
    | none => .error .memberNotFound
    | some e =>
      match tarEnsureFile d a1 with
      | .error er => .error er
      | .ok (h, a2) =>
        if !h.fp then .error .closedHandle
        else if h.hmode.head? ≠ some 'r' then .error .invalidMode
        else
          match e.typ with
          | .dirF => .error .noData
          | .regF => .ok (e.data, a2)

/-- `TarArchive.exists_at` (tar.py lines 146-150): `member_fn in self._members`. -/
def tarExistsAt (d : TDisk) (a : TarArch) (fn : Str) : Except AErr (Bool × TarArch) :=
  match tarEnsureMems d a with
  | .error e => .error e
  | .ok (ms, a1) => .ok ((tarNames ms).contains fn, a1)

/-- The generic `Archive.glob` as it applies to a tar session: filter the
`_members` keys by the `fnmatch2` matcher. -/
def tarGlobNames (ms : List TarEntry) (pat : Str) (caseSensitive : Bool)
    (nc : Char → Char) : List Str :=
  (tarNames ms).filter fun n =>
    if caseSensitive then fnmatchcase2 n pat else fnmatch2 nc n pat

/-- `TarFile.close`: finalise the archive on disk for write-mode handles
and mark the handle closed; idempotent at the codec level. -/
def tarFileClose (d : TDisk) (h : TarHandle) : TDisk × TarHandle :=
  if h.fp then
    (if isWXA h.hmode then some h.entries else d, { h with fp := false })
  else (d, h)

/-- `TarArchive.close` (tar.py lines 55-61): close the cached `_tarfile`
if present; when `self.mode in ("ra")` also drop the `_tarfile` and
`_members` caches. -/
def tarClose : TDisk × TarArch → TDisk × TarArch
  | (d, a) =>
    match a.tfile with
    | none => (d, a)
    | some h =>
      let p := tarFileClose d h
      if modeInRA a.amode then (p.1, { a with tfile := none, mems := none })
      else (p.1, { a with tfile := some p.2 })

/-- `TarArchive.mkdir_at` (tar.py lines 166-178): append a `DIRTYPE` entry
for the slash-terminated name and record it in `_members` — with no
conflict checking whatsoever. -/
def tarMkdirAt (d : TDisk) (a : TarArch) (q : Str) : Except AErr TarArch :=
  match tarEnsureFile d a with
  | .error e => .error e
  | .ok (h, a1) =>
    match tarAddfile h ⟨ensureSlash q, .dirF, []⟩ with
    | .error e => .error e
    | .ok h' =>
      match tarEnsureMems d { a1 with tfile := some h' } with
      | .error e => .error e
      | .ok (ms, a2) => .ok { a2 with mems := some (ms ++ [⟨ensureSlash q, .dirF, []⟩]) }

/-- `TarArchive.touch_at` (tar.py lines 180-181): `write_member(str(at), b"")`
with no conflict checking. -/
def tarTouchAt (d : TDisk) (a : TarArch) (q : Str) : Except AErr TarArch :=
  tarWriteMember d a q []

/-! ## The directory backend (`dir.py`)

The filesystem below `archive_fn` is modelled as an association list from
relative path to node (regular file with payload, or directory), with
last-write-wins lookup.  `close` is a no-op (dir.py lines 108-109). -/

inductive FsNode
  | fileN (b : Bytes)
  | dirN
  deriving DecidableEq

abbrev Fs := List (Str × FsNode)

structure DirArch where
  amode : Str
  root : Fs
  deriving DecidableEq

def fsGet (fs : Fs) (k : Str) : Option FsNode := lookupLastK fs k

def fsSet (fs : Fs) (k : Str) (v : FsNode) : Fs := fs ++ [(k, v)]

/-- The read-only guard of `DirectoryArchive.open_at` (dir.py lines 74-75):
`ValueError` when the member is opened for writing while `self.mode == "r"`. -/
def dirOpenAtWCheck (a : DirArch) : Except AErr Unit :=
  if a.amode = ['r'] then .error .readOnlyViolation else .ok ()

/-- A member opened for writing in the directory backend. -/
structure DirWStream where
  fn : Str
  buf : Bytes
  deriving DecidableEq

/-- `DirectoryArchive.open_at` with a write mode (dir.py lines 64-81). -/
def dirOpenAtW (a : DirArch) (fn : Str) : Except AErr DirWStream :=
  match dirOpenAtWCheck a with
  | .error e => .error e
  | .ok _ => .ok ⟨fn, []⟩

def dirWStreamWrite (st : DirWStream) (b : Bytes) : DirWStream :=
  { st with buf := st.buf ++ b }

/-- Closing the write stream leaves the written file in the tree. -/
def dirWStreamClose (a : DirArch) (st : DirWStream) : DirArch :=
  { a with root := fsSet a.root st.fn (.fileN st.buf) }

/-- `DirectoryArchive.write_member` (dir.py lines 83-97): open for write
and copy the payload in. -/
def dirWriteMember (a : DirArch) (fn : Str) (data : Bytes) : Except AErr DirArch :=
  match dirOpenAtWCheck a with
  | .error e => .error e
  | .ok _ => .ok { a with root := fsSet a.root fn (.fileN data) }

/-- `DirectoryArchive.open_at` with a read mode followed by reading the
stream: the file's bytes, `IsADirectoryError` on a directory,
`FileNotFoundError` when absent. -/
def dirReadAt (a : DirArch) (fn : Str) : Except AErr Bytes :=
  match fsGet a.root fn with
  | some (.fileN b) => .ok b
  | some .dirN => .error .isADirectory
  | none => .error .memberNotFound

/-- `DirectoryArchive.close` (dir.py lines 108-109): `pass`. -/
def dirClose (a : DirArch) : DirArch := a

/-- `DirectoryArchive.mkdir_at` (dir.py lines 111-112), i.e. `pathlib`'s
`mkdir`: `FileExistsError` on any existing node unless it is a directory
and `exist_ok` was passed.  (Missing-parent checking is not modelled.) -/
def dirMkdirAt (a : DirArch) (q : Str) (existOk : Bool) : Except AErr DirArch :=
  match fsGet a.root q with
  | some .dirN => if existOk then .ok a else .error .alreadyExists
  | some (.fileN _) => .error .alreadyExists
  | none => .ok { a with root := fsSet a.root q .dirN }

/-- `DirectoryArchive.touch_at` (dir.py lines 114-115), i.e. `pathlib`'s
`touch` with its default `exist_ok=True`: an existing node — directory or
file — is merely `utime`d, otherwise an empty file is created.  No
conflict is ever reported. -/
def dirTouchAt (a : DirArch) (q : Str) : Except AErr DirArch :=
  match fsGet a.root q with
  | some _ => .ok a
  | none => .ok { a with root := fsSet a.root q (.fileN []) }

/-! ## Round-trip pipelines (claim C1)

Each pipeline opens a fresh archive in write mode, writes member `m` with
payload `p` (via `write_member`, or via an open-for-write stream), closes
the archive, reopens the target in read mode and reads `m` back. -/

def zipRoundTripWM (m : Str) (p : Bytes) : Except AErr Bytes :=
  match zipWriteMember none ⟨['w'], none⟩ m p with
  | .error e => .error e
  | .ok a1 =>
    let pr := zipClose (none, a1)
    match zipOpenAtR pr.1 ⟨['r'], none⟩ m with
    | .error e => .error e
    | .ok (b, _) => .ok b

def zipRoundTripStream (m : Str) (p : Bytes) : Except AErr Bytes :=
  match zipOpenAtW none ⟨['w'], none⟩ m with
  | .error e => .error e
  | .ok (st, a0) =>
    let a1 := zipWStreamClose a0 (zipWStreamWrite st p)
    let pr := zipClose (none, a1)
    match zipOpenAtR pr.1 ⟨['r'], none⟩ m with
    | .error e => .error e
    | .ok (b, _) => .ok b

def tarRoundTripWM (m : Str) (p : Bytes) : Except AErr Bytes :=
  match tarWriteMember none ⟨['w'], none, none⟩ m p with
  | .error e => .error e
  | .ok a1 =>
    let pr := tarClose (none, a1)
    match tarReadAt pr.1 ⟨['r'], none, none⟩ m with
    | .error e => .error e
    | .ok (b, _) => .ok b

def tarRoundTripStream (m : Str) (p : Bytes) : Except AErr Bytes :=
  match tarOpenAtW ⟨['w'], none, none⟩ m with
  | .error e => .error e
  | .ok io =>
    match tarIOClose none ⟨['w'], none, none⟩ (tarIOWrite io p) with
    | .error e => .error e
    | .ok a1 =>
      let pr := tarClose (none, a1)
      match tarReadAt pr.1 ⟨['r'], none, none⟩ m with
      | .error e => .error e
      | .ok (b, _) => .ok b

def dirRoundTripWM (fs0 : Fs) (m : Str) (p : Bytes) : Except AErr Bytes :=
  match dirWriteMember ⟨['w'], fs0⟩ m p with
  | .error e => .error e
  | .ok a1 => dirReadAt { dirClose a1 with amode := ['r'] } m

def dirRoundTripStream (fs0 : Fs) (m : Str) (p : Bytes) : Except AErr Bytes :=
  match dirOpenAtW ⟨['w'], fs0⟩ m with
  | .error e => .error e
  | .ok st =>
    let a1 := dirWStreamClose ⟨['w'], fs0⟩ (dirWStreamWrite st p)
    dirReadAt { dirClose a1 with amode := ['r'] } m

/-! ## Session abbreviations -/

/-- A live tar write session: mode `w`, materialised handle holding
`es`, materialised `_members` cache holding `ms`. -/
def tarWSession (es ms : List TarEntry) : TarArch :=
  ⟨['w'], some ⟨es, true, ['w']⟩, some ms⟩

/-- A live zip write session with materialised handle holding `es`. -/
def zipWSession (es : List (Str × Bytes)) : ZipArch :=
  ⟨['w'], some ⟨es, true, ['w']⟩⟩

/-- The `_TarIO` buffer for member `fn` after the given chunks have been
written into it. -/
def tarIOAfter (fn : Str) (chunks : List Bytes) : TarIO :=
  chunks.foldl tarIOWrite ⟨fn, []⟩

/-! ## Equation lemmas for `gmatch` and other helpers -/

theorem gmatch_nil (s : Str) : gmatch [] s = s.isEmpty := rfl

theorem gmatch_star_star (q s : Str) :
    gmatch ('*' :: '*' :: q) s = (suffixes s).any fun s' => gmatch q s' := rfl

theorem gmatch_star_one (s : Str) :
    gmatch ['*'] s = (segSplits s).any fun s' => s'.isEmpty := rfl

theorem gmatch_question (p s : Str) :
    gmatch ('?' :: p) s =
      match s with
      | d :: s' => !(d == '/') && gmatch p s'
      | [] => false := by
  rw [gmatch.eq_def]
  simp only [if_neg (show ¬('?' : Char) = '*' by decide)]
  exact if_pos trivial

theorem gmatch_star_lit (c : Char) (p s : Str) (h : c ≠ '*') :
    gmatch ('*' :: c :: p) s = (segSplits s).any fun s' => gmatch (c :: p) s' := by
  rw [gmatch.eq_def]
  norm_num
  split
  · next heq => exact absurd (by injection heq) h
  · next heq => exact absurd heq (by simp)
  · next heq =>
    injection heq with h1 h2
    subst h1
    subst h2
    rfl

theorem gmatch_lit (c : Char) (p s : Str) (h1 : c ≠ '*') (h2 : c ≠ '?') :
    gmatch (c :: p) s =
      match s with
      | d :: s' => (c == d) && gmatch p s'
      | [] => false := by
  rw [gmatch.eq_def]
  simp only [if_neg h1, if_neg h2]

theorem tarIOAfter_fn (fn : Str) (chunks : List Bytes) :
    (tarIOAfter fn chunks).fn = fn := by
  unfold tarIOAfter
  suffices hgen : ∀ (io : TarIO), (chunks.foldl tarIOWrite io).fn = io.fn by
    exact hgen ⟨fn, []⟩
  induction chunks with
  | nil => intro io; rfl
  | cons c cs ih => intro io; simp [List.foldl, tarIOWrite, ih]

theorem nil_mem_suffixes (s : Str) : [] ∈ suffixes s := by
  induction s with
  | nil => simp [suffixes]
  | cons c s ih => simp [suffixes, ih]

/-- The recursive wildcard `**` matches every string. -/
theorem gmatch_ss_all (s : Str) : gmatch ['*', '*'] s = true := by
  rw [gmatch_star_star]
  simp only [List.any_eq_true]
  exact ⟨[], nil_mem_suffixes s, rfl⟩

/-! ## Claim theorems -/

/-- C1: for every backend (Directory, Zip, Tar) and all byte payloads `p`
and member paths `m`, opening an archive in write mode, writing member `m`
with payload `p` (via `write_member` or an open-for-write stream), closing
the archive, reopening the target in read mode and reading `m` yields
exactly `p`. -/
theorem roundtrip_write_read (m : Str) (p : Bytes) (fs0 : Fs) :
    zipRoundTripWM m p = .ok p ∧ zipRoundTripStream m p = .ok p
    ∧ tarRoundTripWM m p = .ok p ∧ tarRoundTripStream m p = .ok p
    ∧ dirRoundTripWM fs0 m p = .ok p ∧ dirRoundTripStream fs0 m p = .ok p := by
  refine ⟨?_, ?_, ?_, ?_, ?_, ?_⟩ <;>
    simp [zipRoundTripWM, zipRoundTripStream, tarRoundTripWM, tarRoundTripStream,
      dirRoundTripWM, dirRoundTripStream, zipWriteMember, zipEnsure, zipWritestr,
      zipOpenAtW, zipWStreamWrite, zipWStreamClose, zipOpenAtR, zipClose, zipFileClose,
      isWXA, modeInRA, listSub, lookupLastK,
      tarWriteMember, tarEnsureFile, tarEnsureMems, tarAddfile, tarOpenAtW, tarIOWrite,
      tarIOClose, tarReadAt, tarClose, tarFileClose, tarLookup,
      dirWriteMember, dirOpenAtWCheck, dirOpenAtW, dirWStreamWrite, dirWStreamClose,
      dirReadAt, dirClose, fsGet, fsSet, List.isPrefixOf]

/-- C4: on an archive whose mode is read (`"r"`), opening any member for
write fails with the read-only violation, in every backend: the Zip codec's
`_writecheck` rejects the read-mode handle (whether freshly materialised
from disk or already cached), Tar checks `"r" in self.mode` up front, and
the directory backend checks `self.mode == "r"`. -/
theorem open_write_readonly (es : List (Str × Bytes)) (d : ZDisk)
    (tf : Option TarHandle) (tm : Option (List TarEntry)) (fs : Fs) (fn : Str) :
    zipOpenAtW (some es) ⟨['r'], none⟩ fn = .error .readOnlyViolation
    ∧ zipOpenAtW d ⟨['r'], some ⟨es, true, ['r']⟩⟩ fn = .error .readOnlyViolation
    ∧ tarOpenAtW ⟨['r'], tf, tm⟩ fn = .error .readOnlyViolation
    ∧ dirOpenAtW ⟨['r'], fs⟩ fn = .error .readOnlyViolation := by
  refine ⟨?_, ?_, ?_, ?_⟩ <;>
    simp [zipOpenAtW, zipEnsure, isWXA, tarOpenAtW, dirOpenAtW, dirOpenAtWCheck]

/-- C5: write-mode dispatch walks the fixed subclass order (Tar, Zip,
Directory) and picks the first backend one of whose registered extensions
is a suffix of the target's name; the directory backend's empty extension
matches every name, so it is the catch-all and the `UnknownArchiveError`
branch (`dispatchWrite = none`) is never reached. -/
theorem write_dispatch_first_match (n : Str) :
    extMatches .dirB n = true
    ∧ dispatchWrite n =
        some (if extMatches .tarB n then .tarB
              else if extMatches .zipB n then .zipB else .dirB) := by
  have hdir : extMatches .dirB n = true := by
    simp [extMatches, extensions, List.isSuffixOf, List.isPrefixOf]
  refine ⟨hdir, ?_⟩
  by_cases h1 : extMatches .tarB n <;> by_cases h2 : extMatches .zipB n <;>
    simp [dispatchWrite, subclassOrder, List.find?, h1, h2, hdir]

/-- C9: `close()` is idempotent for every backend and every archive state:
a second `close()` returns without error and leaves the state (and the
on-disk archive) exactly as the first left it. -/
theorem close_idempotent (x : ZDisk × ZipArch) (y : TDisk × TarArch) (a : DirArch) :
    zipClose (zipClose x) = zipClose x ∧ tarClose (tarClose y) = tarClose y
    ∧ dirClose (dirClose a) = dirClose a := by
  refine ⟨?_, ?_, rfl⟩
  · obtain ⟨d, az⟩ := x
    obtain ⟨am, cached⟩ := az
    cases cached with
    | none => simp [zipClose]
    | some h =>
      by_cases hra : modeInRA am
      · simp [zipClose, hra]
      · cases hfp : h.fp <;> simp [zipClose, zipFileClose, hra, hfp]
  · obtain ⟨d, at'⟩ := y
    obtain ⟨am, tfile, mems⟩ := at'
    cases tfile with
    | none => simp [tarClose]
    | some h =>
      by_cases hra : modeInRA am
      · simp [tarClose, hra]
      · cases hfp : h.fp <;> simp [tarClose, tarFileClose, hra, hfp]

/-- C10: `_ArchivePath.match` uses the standard-library `fnmatch`, so `*`
crosses path separators — the path `a/b` matches the pattern `*` (on both
platform normcases), unlike the glob matcher — and with no
`case_sensitive` argument it case-folds with the platform `normcase`
(match across case under the Windows normcase) instead of matching
case-sensitively. -/
theorem path_match_semantics :
    pathMatch false posixNormcase ['a', '/', 'b'] ['*'] = true
    ∧ pathMatch false windowsNormcase ['a', '/', 'b'] ['*'] = true
    ∧ gmatch ['*'] ['a', '/', 'b'] = false
    ∧ pathMatch false windowsNormcase ['A', '.', 'T', 'X', 'T'] ['a', '.', 't', 'x', 't'] = true
    ∧ pathMatch true windowsNormcase ['A', '.', 'T', 'X', 'T'] ['a', '.', 't', 'x', 't'] = false
    ∧ pathMatch false posixNormcase ['A'] ['a'] = false := by
  decide

/-- C2: in a tar write session, a member opened for write lives in a pure
in-memory `_TarIO` buffer: while only the buffer has been written to, the
member is absent from `members()`, `exists_at` and every `glob` result of
the session; the commit happens exactly at `close()` of that buffer, after
which the member is present in `members()`, `exists_at` and `glob`. -/
theorem tar_buffer_then_commit (es ms : List TarEntry) (fn : Str)
    (chunks : List Bytes) (d : TDisk) (hfn : fn ∉ tarNames ms) :
    tarOpenAtW (tarWSession es ms) fn = .ok ⟨fn, []⟩
    ∧ tarExistsAt d (tarWSession es ms) fn = .ok (false, tarWSession es ms)
    ∧ (∀ pat cs nc, fn ∉ tarGlobNames ms pat cs nc)
    ∧ tarIOClose d (tarWSession es ms) (tarIOAfter fn chunks)
        = .ok (tarWSession (es ++ [⟨fn, .regF, (tarIOAfter fn chunks).buf⟩])
                           (ms ++ [⟨fn, .regF, (tarIOAfter fn chunks).buf⟩]))
    ∧ fn ∈ tarNames (ms ++ [⟨fn, .regF, (tarIOAfter fn chunks).buf⟩])
    ∧ tarExistsAt d (tarWSession (es ++ [⟨fn, .regF, (tarIOAfter fn chunks).buf⟩])
                                 (ms ++ [⟨fn, .regF, (tarIOAfter fn chunks).buf⟩])) fn
        = .ok (true, tarWSession (es ++ [⟨fn, .regF, (tarIOAfter fn chunks).buf⟩])
                                 (ms ++ [⟨fn, .regF, (tarIOAfter fn chunks).buf⟩]))
    ∧ fn ∈ tarGlobNames (ms ++ [⟨fn, .regF, (tarIOAfter fn chunks).buf⟩]) ['*', '*'] true id := by
  refine ⟨?_, ?_, ?_, ?_, ?_, ?_, ?_⟩
  · simp [tarOpenAtW, tarWSession]
  · simp [tarExistsAt, tarEnsureMems, tarWSession]
    exact hfn
  · intro pat cs nc h
    exact hfn (List.mem_of_mem_filter h)
  · rw [tarIOClose, tarIOAfter_fn]
    simp [tarWriteMember, tarEnsureFile, tarEnsureMems, tarAddfile, tarWSession, isWXA]
  · simp [tarNames]
  · simp [tarExistsAt, tarEnsureMems, tarWSession, tarNames]
  · refine List.mem_filter.mpr ⟨by simp [tarNames], ?_⟩
    simp [fnmatchcase2, gmatch_ss_all]

/-- C2 witness: the theorem applied at the session with no members, member
name `x` and two buffered chunks. -/
theorem tar_buffer_then_commit_witness :
    (['x'] ∉ tarNames ([] : List TarEntry))
    ∧ tarIOClose none (tarWSession [] []) (tarIOAfter ['x'] [[1], [2]])
        = .ok (tarWSession [⟨['x'], .regF, [1, 2]⟩] [⟨['x'], .regF, [1, 2]⟩]) :=
  ⟨by decide, (tar_buffer_then_commit [] [] ['x'] [[1], [2]] none (by decide)).2.2.2.1⟩

theorem segSplits_count (s' s : Str) (h : s' ∈ segSplits s) :
    s'.count '/' = s.count '/' := by
  induction s generalizing s' with
  | nil =>
    simp [segSplits] at h
    subst h
    rfl
  | cons c s ih =>
    simp only [segSplits] at h
    rcases List.mem_cons.mp h with h1 | h2
    · subst h1; rfl
    · by_cases hc : c = '/'
      · simp [hc] at h2
      · rw [if_neg hc] at h2
        rw [ih s' h2]
        simp [List.count_cons, hc]

theorem segSplits_any_empty (s : Str) :
    ((segSplits s).any fun s' => s'.isEmpty) = true ↔ '/' ∉ s := by
  induction s with
  | nil => simp [segSplits]
  | cons c s ih =>
    by_cases hc : c = '/'
    · subst hc
      simp [segSplits]
    · simp [segSplits, hc, ih, eq_comm]

/-- Core of claim C3: a `**`-free pattern can only match a string with
exactly as many separators as the pattern itself spells out — `*` and `?`
never match across a `/`. -/
theorem gmatch_slash_count (p : Str) : ∀ s, noSS p = true → gmatch p s = true →
    s.count '/' = p.count '/' := by
  induction p with
  | nil =>
    intro s _ hm
    rw [gmatch_nil] at hm
    rw [List.isEmpty_iff] at hm
    subst hm
    rfl
  | cons c p ih =>
    intro s hss hm
    by_cases hc : c = '*'
    · subst hc
      cases p with
      | nil =>
        rw [gmatch_star_one] at hm
        simp only [List.any_eq_true] at hm
        obtain ⟨s', hmem, hempty⟩ := hm
        have h1 : s'.count '/' = s.count '/' := segSplits_count s' s hmem
        have h2 : s' = [] := by simpa using hempty
        subst h2
        simp [← h1]
      | cons c2 p2 =>
        by_cases hc2 : c2 = '*'
        · subst hc2
          simp [noSS] at hss
        · rw [gmatch_star_lit c2 p2 s hc2] at hm
          simp only [List.any_eq_true] at hm
          obtain ⟨s', hmem, hm'⟩ := hm
          have h1 : s'.count '/' = s.count '/' := segSplits_count s' s hmem
          have hss' : noSS (c2 :: p2) = true := by
            have hb : (((c2 :: p2) : Str).head? == some '*') = false := by
              simp [hc2]
            simp [noSS, hb] at hss
            simp [noSS, hss.2]
          rw [← h1, ih s' hss' hm']
          simp [List.count_cons]
    · by_cases hq : c = '?'
      · subst hq
        rw [gmatch_question] at hm
        cases s with
        | nil => exact absurd hm (by simp)
        | cons dch s' =>
          simp only [Bool.and_eq_true, Bool.not_eq_true'] at hm
          obtain ⟨hd, hm'⟩ := hm
          have hss' : noSS p = true := by
            simp [noSS] at hss
            exact hss
          rw [List.count_cons, List.count_cons, ih s' hss' hm']
          simp [hd]
      · rw [gmatch_lit c p s hc hq] at hm
        cases s with
        | nil => exact absurd hm (by simp)
        | cons dch s' =>
          simp only [Bool.and_eq_true, beq_iff_eq] at hm
          obtain ⟨hcd, hm'⟩ := hm
          subst hcd
          have hcb : (c == '*') = false := by simp [hc]
          have hss' : noSS p = true := by
            simp [noSS, hcb] at hss
            exact hss
          rw [List.count_cons, List.count_cons, ih s' hss' hm']

/-- C3: in `Archive.glob`, for every `**`-free (and class-free) pattern,
`*` and `?` never match across a path separator — a matched string carries
exactly the separators the pattern spells out — while `**` does cross:
member `a/b.txt` is missed by the pattern `*` and found by `**`. -/
theorem glob_segment_boundary :
    (∀ p s, noSS p = true → '[' ∉ p → gmatch p s = true → s.count '/' = p.count '/')
    ∧ genGlob [[['a'], ['b', '.', 't', 'x', 't']]] ['*'] false id = []
    ∧ genGlob [[['a'], ['b', '.', 't', 'x', 't']]] ['*', '*'] false id
        = [[['a'], ['b', '.', 't', 'x', 't']]] := by
  exact ⟨fun p s hss _ hm => gmatch_slash_count p s hss hm, by decide, by decide⟩

/-- C3 witness: the boundary property applied at pattern `*/b` and subject
`a/b`. -/
theorem glob_segment_boundary_witness :
    noSS ['*', '/', 'b'] = true ∧ gmatch ['*', '/', 'b'] ['a', '/', 'b'] = true
    ∧ (['a', '/', 'b'] : Str).count '/' = (['*', '/', 'b'] : Str).count '/' :=
  ⟨by decide, by decide,
    glob_segment_boundary.1 ['*', '/', 'b'] ['a', '/', 'b'] (by decide) (by decide) (by decide)⟩

theorem genGlob_posix (M : List MPath) (pat : Str) (cs : Bool) :
    genGlob M pat cs posixNormcase = M.filter fun m => gmatch pat (joinSegs m) := by
  unfold genGlob
  refine List.filter_congr fun m _ => ?_
  cases cs <;> simp [fnmatch2, fnmatchcase2, posixNormcase]

/-- C8 counterexample: under the Windows normcase — a real value of the
platform parameter that the default glob path (`case_sensitive` absent,
hence `fnmatch2.fnmatch2`) depends on — the default glob does NOT
distinguish the member `A` from the pattern `a`, while forcing
`case_sensitive=True` does. -/
theorem glob_default_case_counterexample :
    genGlob [[['A']]] ['a'] false windowsNormcase = [[['A']]]
    ∧ genGlob [[['A']]] ['a'] true windowsNormcase = [] := by
  constructor <;> decide

/-- C8 amended: glob's default case behaviour is the platform `normcase`:
`case_sensitive=True` matches exactly for every normcase; the default
(`case_sensitive` absent, i.e. `False`) matches exactly on POSIX — where
`normcase` is the identity — but folds case under the Windows normcase. -/
theorem glob_default_case_amended :
    (∀ M pat cs, genGlob M pat cs posixNormcase = M.filter fun m => gmatch pat (joinSegs m))
    ∧ (∀ nc, genGlob [[['A']]] ['a'] true nc = [])
    ∧ genGlob [[['A']]] ['a'] false posixNormcase = []
    ∧ genGlob [[['a']]] ['a'] false posixNormcase = [[['a']]] := by
  refine ⟨genGlob_posix, fun nc => rfl, by decide, by decide⟩

/-- C7 counterexample: tar's `mkdir_at` performs no conflict check — with a
regular-file member `a` already present, `mkdir` of `a` succeeds, appending
a directory entry `a/` instead of raising `AlreadyExists`; likewise zip's
`touch_at` on a name whose directory entry exists silently writes an empty
file member. -/
theorem mkdir_touch_counterexample :
    tarMkdirAt none (tarWSession [⟨['a'], .regF, [1]⟩] [⟨['a'], .regF, [1]⟩]) ['a']
      = .ok (tarWSession [⟨['a'], .regF, [1]⟩, ⟨['a', '/'], .dirF, []⟩]
                         [⟨['a'], .regF, [1]⟩, ⟨['a', '/'], .dirF, []⟩])
    ∧ zipTouchAt none (zipWSession [(['a', '/'], [])]) ['a']
      = .ok (zipWSession [(['a', '/'], []), (['a'], [])]) := by
  constructor <;> decide

/-- C7 amended: the Zip backend's `mkdir` (when the codec provides
`ZipFile.mkdir`, Python 3.11+) raises `FileExistsError` when a file entry
occupies the name, raises when the directory already exists without
`exist_ok` and is a no-op with it; the directory backend's `mkdir`
likewise raises on an existing node.  But the Tar backend's `mkdir`
performs no conflict check at all, and `touch` performs none in any
backend (zip/tar write an empty member, the directory backend `utime`s
the existing node). -/
theorem mkdir_touch_conflicts (es : List (Str × Bytes)) (tes tms : List TarEntry)
    (q1 q2 q3 fn : Str) (d : ZDisk) (td : TDisk) (fs : Fs) (existOk : Bool) (b : Bytes) :
    (zipPathExists es (ensureSlash q1).dropLast = true →
      zipMkdirAt d (zipWSession es) q1 existOk true = .error .alreadyExists)
    ∧ (zipPathExists es (ensureSlash q2).dropLast = false →
       zipPathExists es (ensureSlash q2) = true →
        zipMkdirAt d (zipWSession es) q2 false true = .error .alreadyExists)
    ∧ (zipPathExists es (ensureSlash q2).dropLast = false →
       zipPathExists es (ensureSlash q2) = true →
        zipMkdirAt d (zipWSession es) q2 true true = .ok (zipWSession es))
    ∧ (fsGet fs q3 = some (.fileN b) →
        dirMkdirAt ⟨['w'], fs⟩ q3 existOk = .error .alreadyExists)
    ∧ tarMkdirAt td (tarWSession tes tms) q1
        = .ok (tarWSession (tes ++ [⟨ensureSlash q1, .dirF, []⟩])
                           (tms ++ [⟨ensureSlash q1, .dirF, []⟩]))
    ∧ zipTouchAt d (zipWSession es) fn = .ok (zipWSession (es ++ [(fn, [])]))
    ∧ tarTouchAt td (tarWSession tes tms) fn
        = .ok (tarWSession (tes ++ [⟨fn, .regF, []⟩]) (tms ++ [⟨fn, .regF, []⟩]))
    ∧ (∃ a', dirTouchAt ⟨['w'], fs⟩ fn = .ok a') := by
  refine ⟨?_, ?_, ?_, ?_, ?_, ?_, ?_, ?_⟩
  · intro h1
    simp [zipMkdirAt, zipEnsure, zipWSession, h1]
  · intro h1 h2
    simp [zipMkdirAt, zipEnsure, zipWSession, h1, h2]
  · intro h1 h2
    simp [zipMkdirAt, zipEnsure, zipWSession, h1, h2]
  · intro h
    simp [dirMkdirAt, h]
  · simp [tarMkdirAt, tarEnsureFile, tarEnsureMems, tarAddfile, tarWSession, isWXA]
  · simp [zipTouchAt, zipWriteMember, zipEnsure, zipWritestr, zipWSession, isWXA]
  · simp [tarTouchAt, tarWriteMember, tarEnsureFile, tarEnsureMems, tarAddfile,
      tarWSession, isWXA]
  · simp only [dirTouchAt]
    cases hg : fsGet fs fn
    · exact ⟨_, rfl⟩
    · exact ⟨_, rfl⟩

/-- C7 witness: the amended theorem applied at a zip session holding file
`f` and directory `d/`, and a directory backend holding file `g`. -/
theorem mkdir_touch_conflicts_witness :
    zipMkdirAt none (zipWSession [(['f'], []), (['d', '/'], [])]) ['f'] true true
      = .error .alreadyExists
    ∧ zipMkdirAt none (zipWSession [(['f'], []), (['d', '/'], [])]) ['d'] false true
      = .error .alreadyExists
    ∧ zipMkdirAt none (zipWSession [(['f'], []), (['d', '/'], [])]) ['d'] true true
      = .ok (zipWSession [(['f'], []), (['d', '/'], [])])
    ∧ dirMkdirAt ⟨['w'], [(['g'], .fileN [])]⟩ ['g'] true = .error .alreadyExists := by
  have h := mkdir_touch_conflicts [(['f'], []), (['d', '/'], [])] [] [] ['f'] ['d'] ['g'] ['t']
    none none [(['g'], .fileN [])] true []
  exact ⟨h.1 (by decide), h.2.1 (by decide) (by decide), h.2.2.1 (by decide) (by decide),
    h.2.2.2.1 (by decide)⟩

theorem bool_eq_of_iff {a b : Bool} (h : a = true ↔ b = true) : a = b := by
  cases a <;> cases b <;> simp_all

theorem joinSegs_single (s : Seg) : joinSegs [s] = s := rfl

theorem joinSegs_cons_cons (a b : Seg) (r : MPath) :
    joinSegs (a :: b :: r) = a ++ '/' :: joinSegs (b :: r) := rfl

theorem canonicalP_tail {x : Seg} {m : MPath} (h : canonicalP (x :: m)) :
    canonicalP m :=
  fun s hs => h s (List.mem_cons_of_mem x hs)

theorem append_slash_inj (x : Str) : ∀ (y u v : Str), '/' ∉ x → '/' ∉ y →
    x ++ '/' :: u = y ++ '/' :: v → x = y ∧ u = v := by
  induction x with
  | nil =>
    intro y u v _ hy h
    cases y with
    | nil =>
      simp only [List.nil_append] at h
      injection h with _ h2
      exact ⟨rfl, h2⟩
    | cons b y =>
      rw [List.nil_append, List.cons_append] at h
      injection h with h1 h2
      rw [h1] at hy
      exact absurd (List.mem_cons_self _ _) hy
  | cons a x ih =>
    intro y u v hx hy h
    cases y with
    | nil =>
      rw [List.cons_append, List.nil_append] at h
      injection h with h1 h2
      rw [← h1] at hx
      exact absurd (List.mem_cons_self _ _) hx
    | cons b y =>
      rw [List.cons_append, List.cons_append] at h
      injection h with h1 h2
      have hx' : '/' ∉ x := fun hmem => hx (List.mem_cons_of_mem _ hmem)
      have hy' : '/' ∉ y := fun hmem => hy (List.mem_cons_of_mem _ hmem)
      obtain ⟨e1, e2⟩ := ih y u v hx' hy' h2
      exact ⟨by rw [h1, e1], e2⟩

theorem joinSegs_append_single (d : MPath) (x : Seg) (hd : d ≠ []) :
    joinSegs (d ++ [x]) = joinSegs d ++ '/' :: x := by
  induction d with
  | nil => exact absurd rfl hd
  | cons a d ih =>
    cases d with
    | nil =>
      show joinSegs [a, x] = joinSegs [a] ++ '/' :: x
      rw [joinSegs_cons_cons, joinSegs_single, joinSegs_single]
    | cons b d' =>
      have e := ih (by simp)
      rw [List.cons_append, List.cons_append, joinSegs_cons_cons a b (d' ++ [x])]
      rw [List.cons_append] at e
      rw [e, joinSegs_cons_cons a b d']
      simp [List.append_assoc]

theorem mem_joinSegs (c : Char) (d : MPath) (h : c ∈ joinSegs d) :
    c = '/' ∨ ∃ s ∈ d, c ∈ s := by
  induction d with
  | nil => simp [joinSegs] at h
  | cons a d ih =>
    cases d with
    | nil =>
      rw [joinSegs_single] at h
      exact Or.inr ⟨a, by simp, h⟩
    | cons b d' =>
      rw [joinSegs_cons_cons] at h
      rcases List.mem_append.mp h with h1 | h2
      · exact Or.inr ⟨a, by simp, h1⟩
      · rcases List.mem_cons.mp h2 with h3 | h4
        · exact Or.inl h3
        · rcases ih h4 with h5 | ⟨s, hs, hc⟩
          · exact Or.inl h5
          · exact Or.inr ⟨s, List.mem_cons_of_mem a hs, hc⟩

theorem gmatch_append_lit (L : Str) : ∀ (p s : Str), (∀ c ∈ L, c ≠ '*' ∧ c ≠ '?') →
    (gmatch (L ++ p) s = true ↔ ∃ s', s = L ++ s' ∧ gmatch p s' = true) := by
  induction L with
  | nil =>
    intro p s _
    simp
  | cons c L ih =>
    intro p s hL
    obtain ⟨h1, h2⟩ := hL c (List.mem_cons_self c L)
    have hL' : ∀ e ∈ L, e ≠ '*' ∧ e ≠ '?' := fun e he => hL e (List.mem_cons_of_mem c he)
    rw [List.cons_append, gmatch_lit c (L ++ p) s h1 h2]
    cases s with
    | nil => simp
    | cons dch s =>
      constructor
      · intro hm
        simp only [Bool.and_eq_true, beq_iff_eq] at hm
        obtain ⟨hcd, hm'⟩ := hm
        subst hcd
        obtain ⟨s', rfl, hs'⟩ := (ih p s hL').mp hm'
        exact ⟨s', rfl, hs'⟩
      · rintro ⟨s', heq, hs'⟩
        rw [List.cons_append] at heq
        injection heq with e1 e2
        subst e1
        rw [e2]
        have hrec := (ih p (L ++ s') hL').mpr ⟨s', rfl, hs'⟩
        simp [hrec]

theorem joinSegs_concat_inj (d : MPath) : ∀ (m : MPath) (s' : Str),
    m ≠ [] → canonicalP m → d ≠ [] → canonicalP d → '/' ∉ s' →
    joinSegs m = joinSegs d ++ '/' :: s' → m = d ++ [s'] := by
  induction d with
  | nil =>
    intro m s' _ _ hd _ _ _
    exact absurd rfl hd
  | cons a d' ih =>
    intro m s' hm hmc _ hdc hs heq
    cases m with
    | nil => exact absurd rfl hm
    | cons x m' =>
      cases d' with
      | nil =>
        cases m' with
        | nil =>
          rw [joinSegs_single, joinSegs_single] at heq
          have hin : '/' ∈ (x : Str) := by
            rw [heq]
            exact List.mem_append_right _ (List.mem_cons_self _ _)
          exact absurd hin (hmc x (by simp)).2
        | cons y m'' =>
          rw [joinSegs_cons_cons, joinSegs_single] at heq
          obtain ⟨e1, e2⟩ := append_slash_inj x a (joinSegs (y :: m'')) s'
            (hmc x (by simp)).2 (hdc a (by simp)).2 heq
          cases m'' with
          | nil =>
            rw [joinSegs_single] at e2
            rw [e1, e2]
            rfl
          | cons z m3 =>
            rw [joinSegs_cons_cons] at e2
            have hin : '/' ∈ (s' : Str) := by
              rw [← e2]
              exact List.mem_append_right _ (List.mem_cons_self _ _)
            exact absurd hin hs
      | cons b d'' =>
        cases m' with
        | nil =>
          rw [joinSegs_single, joinSegs_cons_cons] at heq
          have hin : '/' ∈ (x : Str) := by
            rw [heq]
            exact List.mem_append_left _ (List.mem_append_right _ (List.mem_cons_self _ _))
          exact absurd hin (hmc x (by simp)).2
        | cons y m'' =>
          rw [joinSegs_cons_cons, joinSegs_cons_cons, List.append_assoc,
            List.cons_append] at heq
          obtain ⟨e1, e2⟩ := append_slash_inj x a (joinSegs (y :: m''))
            (joinSegs (b :: d'') ++ '/' :: s')
            (hmc x (by simp)).2 (hdc a (by simp)).2 heq
          have hrec := ih (y :: m'') s' (by simp) (canonicalP_tail hmc) (by simp)
            (canonicalP_tail hdc) hs e2
          rw [e1, List.cons_append, hrec]

/-- Core of claim C6 for the generic (flat-member) glob: for canonical
paths whose directory part carries no glob metacharacters, the pattern
`str(d / "*")` matches exactly the members whose parent is `d`. -/
theorem gmatch_childpat_iff (m d : MPath) (hm : m ≠ []) (hmc : canonicalP m)
    (hdc : canonicalP d) (hdLit : ∀ s ∈ d, ∀ c ∈ s, c ≠ '*' ∧ c ≠ '?') :
    (gmatch (childGlobPat d) (joinSegs m) = true ↔ m.dropLast = d) := by
  by_cases hd : d = []
  · subst hd
    have hc : childGlobPat [] = ['*'] := rfl
    rw [hc, gmatch_star_one, segSplits_any_empty]
    cases m with
    | nil => exact absurd rfl hm
    | cons x m' =>
      cases m' with
      | nil =>
        rw [joinSegs_single]
        constructor
        · intro _
          rfl
        · intro _
          exact (hmc x (by simp)).2
      | cons y m'' =>
        rw [joinSegs_cons_cons]
        constructor
        · intro hnot
          exact absurd (List.mem_append_right _ (List.mem_cons_self _ _)) hnot
        · intro hdrop
          exact absurd hdrop (by simp)
  · have hpat : childGlobPat d = (joinSegs d ++ ['/']) ++ ['*'] := by
      unfold childGlobPat
      rw [joinSegs_append_single d ['*'] hd]
      simp
    rw [hpat]
    have hLlit : ∀ c ∈ joinSegs d ++ ['/'], c ≠ '*' ∧ c ≠ '?' := by
      intro c hcmem
      rcases List.mem_append.mp hcmem with h1 | h2
      · rcases mem_joinSegs c d h1 with rfl | ⟨s, hs, hcs⟩
        · exact ⟨by decide, by decide⟩
        · exact hdLit s hs c hcs
      · simp only [List.mem_singleton] at h2
        subst h2
        exact ⟨by decide, by decide⟩
    rw [gmatch_append_lit (joinSegs d ++ ['/']) ['*'] (joinSegs m) hLlit]
    constructor
    · rintro ⟨s', heq, hstar⟩
      rw [gmatch_star_one, segSplits_any_empty] at hstar
      have heq' : joinSegs m = joinSegs d ++ '/' :: s' := by
        rw [heq]
        simp
      rw [joinSegs_concat_inj d m s' hm hmc hd hdc hstar heq']
      simp
    · intro hdrop
      refine ⟨m.getLast hm, ?_, ?_⟩
      · have hm2 : m = d ++ [m.getLast hm] := by
          conv_lhs => rw [← List.dropLast_append_getLast hm]
          rw [hdrop]
        calc joinSegs m = joinSegs (d ++ [m.getLast hm]) := by rw [← hm2]
          _ = joinSegs d ++ '/' :: m.getLast hm := joinSegs_append_single d _ hd
          _ = (joinSegs d ++ ['/']) ++ m.getLast hm := by simp
      · rw [gmatch_star_one, segSplits_any_empty]
        exact (hmc _ (List.getLast_mem hm)).2

/-- Core of claim C6 for the segment-wise (`pathlib`) glob of the
directory backend. -/
theorem segsMatch_star_iff (d : MPath) : ∀ (m : MPath), m ≠ [] → canonicalP m →
    (∀ s ∈ d, ∀ c ∈ s, c ≠ '*' ∧ c ≠ '?') →
    (segsMatch m (d ++ [['*']]) = true ↔ m.dropLast = d) := by
  induction d with
  | nil =>
    intro m hm hmc _
    cases m with
    | nil => exact absurd rfl hm
    | cons x m' =>
      cases m' with
      | nil =>
        show (gmatch ['*'] x && segsMatch [] []) = true ↔ _
        rw [gmatch_star_one]
        simp only [segsMatch, Bool.and_true, List.dropLast_single]
        rw [segSplits_any_empty]
        constructor
        · intro _
          trivial
        · intro _
          exact (hmc x (by simp)).2
      | cons y m'' =>
        show (gmatch ['*'] x && segsMatch (y :: m'') []) = true ↔ _
        constructor
        · intro h
          simp [segsMatch] at h
        · intro h
          simp at h
  | cons a d' ih =>
    intro m hm hmc hdl
    cases m with
    | nil => exact absurd rfl hm
    | cons x m' =>
      have ha : ∀ c ∈ a, c ≠ '*' ∧ c ≠ '?' := hdl a (by simp)
      have hax : gmatch a x = true ↔ x = a := by
        have hap := gmatch_append_lit a [] x ha
        rw [List.append_nil] at hap
        rw [hap]
        constructor
        · rintro ⟨s', heq, hs'⟩
          rw [gmatch_nil] at hs'
          have hs0 : s' = [] := by simpa using hs'
          subst hs0
          rw [heq, List.append_nil]
        · intro hxe
          exact ⟨[], by simp [hxe], rfl⟩
      cases m' with
      | nil =>
        rw [List.cons_append]
        show (gmatch a x && segsMatch [] (d' ++ [['*']])) = true ↔ _
        constructor
        · intro h
          exfalso
          rcases hq : d' ++ [['*']] with _ | ⟨q, qs⟩
          · simp at hq
          · rw [hq] at h
            simp [segsMatch] at h
        · intro h
          exfalso
          simp only [List.dropLast_single] at h
          exact absurd h (by simp)
      | cons y m'' =>
        rw [List.cons_append]
        show (gmatch a x && segsMatch (y :: m'') (d' ++ [['*']])) = true ↔ _
        rw [Bool.and_eq_true, hax,
          ih (y :: m'') (by simp) (canonicalP_tail hmc) (fun s hs => hdl s (by simp [hs]))]
        constructor
        · rintro ⟨rfl, h2⟩
          simp [h2]
        · intro h
          rw [List.dropLast_cons₂] at h
          injection h with h1 h2
          exact ⟨h1, h2⟩

/-- C6 counterexample: for the virtual path `a*` in an archive whose only
member is `ab/c`, `glob("*")` yields the member — the `a*` part of the
built pattern `a*/*` glob-matches the sibling directory `ab` — while
`iterdir()` yields nothing, so the two sets differ. -/
theorem iterdir_glob_counterexample :
    genGlob [[['a', 'b'], ['c']]] (childGlobPat [['a', '*']]) false posixNormcase
      ≠ iterdirAt [[['a', 'b'], ['c']]] [['a', '*']] := by
  decide

/-- C6 amended: `set(d.iterdir()) == set(d.glob("*"))` holds for every
archive and every virtual path `d` whose segments contain no glob
metacharacter (`*`, `?`, `[`), with the platform-identity (POSIX)
normcase: both the generic flat-member glob (Zip/Tar) and the
segment-wise pathlib glob (Directory) then return exactly the members
whose parent is `d`. -/
theorem iterdir_glob_amended (M : List MPath) (d : MPath) (cs : Bool)
    (hM : ∀ m ∈ M, m ≠ [] ∧ canonicalP m)
    (hdc : canonicalP d)
    (hdLit : ∀ s ∈ d, ∀ c ∈ s, c ≠ '*' ∧ c ≠ '?' ∧ c ≠ '[') :
    genGlob M (childGlobPat d) cs posixNormcase = iterdirAt M d
    ∧ plGlob M (d ++ [['*']]) = iterdirAt M d := by
  have hdLit' : ∀ s ∈ d, ∀ c ∈ s, c ≠ '*' ∧ c ≠ '?' :=
    fun s hs c hc => ⟨(hdLit s hs c hc).1, (hdLit s hs c hc).2.1⟩
  constructor
  · rw [genGlob_posix]
    unfold iterdirAt
    refine List.filter_congr fun m hmM => ?_
    obtain ⟨hm, hmc⟩ := hM m hmM
    exact bool_eq_of_iff
      ((gmatch_childpat_iff m d hm hmc hdc hdLit').trans beq_iff_eq.symm)
  · unfold plGlob iterdirAt
    refine List.filter_congr fun m hmM => ?_
    obtain ⟨hm, hmc⟩ := hM m hmM
    exact bool_eq_of_iff
      ((segsMatch_star_iff d m hm hmc hdLit').trans beq_iff_eq.symm)

/-- C6 witness: the amended equivalence applied at members `{a/b, a}` and
directory path `a` (both globs and `iterdir` yield exactly `a/b`). -/
theorem iterdir_glob_amended_witness :
    genGlob [[['a'], ['b']], [['a']]] (childGlobPat [['a']]) false posixNormcase
      = iterdirAt [[['a'], ['b']], [['a']]] [['a']]
    ∧ plGlob [[['a'], ['b']], [['a']]] ([['a']] ++ [['*']])
      = iterdirAt [[['a'], ['b']], [['a']]] [['a']] :=
  iterdir_glob_amended [[['a'], ['b']], [['a']]] [['a']] false (by decide) (by decide)
    (by decide)

end OmniArchive
